import Mathlib

/-!
Shallow embedding of `src/main.py` (YouTube Content Analyzer).

Python strings are modelled as `List Char`.  The regular-expression
substitutions of `clean_subtitle_text` are modelled as explicit scanning
functions with the exact left-to-right, leftmost-match semantics of
Python's `re.sub`; the external collaborators (yt_dlp, whisper, the
ollama chat model, the streamlit widgets) are modelled as explicit
oracle inputs, and every `st.error` display is collected as an output.
-/

/-- The ASCII whitespace characters matched by Python's regex class
backslash-s and stripped by `str.strip()`. -/
def isPySpace (c : Char) : Bool :=
  c == ' ' || c == '\t' || c == '\n' || c == '\r' || c == '\x0b' || c == '\x0c'

/-- Single-character predicate: exactly the character `x`. -/
def chP (x : Char) (c : Char) : Bool := c == x

/-- Single-character predicate: an ASCII digit, Python's backslash-d. -/
def digitP (c : Char) : Bool := c.isDigit

/-- Match a fixed-length sequence of one-character predicates at the head of
the input; on success return the rest of the input. -/
def matchShape : List (Char → Bool) → List Char → Option (List Char)
  | [], l => some l
  | _ :: _, [] => none
  | p :: ps, c :: cs => if p c then matchShape ps cs else none

/-- The shape of one cue timestamp `dd:dd:dd.ddd` in the pattern of
`re.sub(r'\d{2}:\d{2}:\d{2}\.\d{3} --> ...', '', content)`. -/
def timePat : List (Char → Bool) :=
  [digitP, digitP, chP ':', digitP, digitP, chP ':', digitP, digitP, chP '.',
   digitP, digitP, digitP]

/-- The full fixed head of the timestamp-line pattern:
`\d{2}:\d{2}:\d{2}\.\d{3} --> \d{2}:\d{2}:\d{2}\.\d{3}`. -/
def tsShape : List (Char → Bool) :=
  timePat ++ [chP ' ', chP '-', chP '-', chP '>', chP ' '] ++ timePat

/-- Drop characters up to and including the first newline; `none` when the
input holds no newline (the lazy `.*?\n` tail then has no match). -/
def dropThroughNl : List Char → Option (List Char)
  | [] => none
  | c :: cs => if c == '\n' then some cs else dropThroughNl cs

/-- One attempted match of the whole timestamp-line pattern at the head of
the input: the fixed head, then (without DOTALL) lazily everything up to and
including the first newline.  Returns the input after the match. -/
def tsMatch (l : List Char) : Option (List Char) :=
  match matchShape tsShape l with
  | some r => dropThroughNl r
  | none => none

/-- Fueled scan of `re.sub(r'\d{2}:...\d{3}.*?\n', '', content)`: at each
position try the pattern; on a match resume after it, otherwise keep the
character.  The fuel only bounds recursion; `subTimestamps` supplies
`l.length`, which every step stays within since a match consumes at least
one character. -/
def subTsFuel : Nat → List Char → List Char
  | 0, l => l
  | _ + 1, [] => []
  | fuel + 1, c :: cs =>
    match tsMatch (c :: cs) with
    | some r => subTsFuel fuel r
    | none => c :: subTsFuel fuel cs

/-- Line 124 of main.py: remove every cue timestamp-range line. -/
def subTimestamps (l : List Char) : List Char := subTsFuel l.length l

/-- The rest of the input after the first occurrence of two consecutive
newlines; `none` when there is no such occurrence. -/
def findDoubleNl : List Char → Option (List Char)
  | '\n' :: '\n' :: cs => some cs
  | _ :: cs => findDoubleNl cs
  | [] => none

/-- One attempted match of `^WEBVTT.*?\n\n` (MULTILINE and DOTALL) at the
current position: the position must be a line start, the input must begin
with `WEBVTT`, and lazily the match extends through the first following
blank-line separator. -/
def webvttMatch (atStart : Bool) (l : List Char) : Option (List Char) :=
  if atStart && List.isPrefixOf "WEBVTT".toList l then findDoubleNl (l.drop 6)
  else none

/-- Fueled scan of `re.sub(r'^WEBVTT.*?\n\n', '', vtt_content, MULTILINE |
DOTALL)`; the Bool tracks whether the current position is a line start. -/
def subWebvttFuel : Nat → Bool → List Char → List Char
  | 0, _, l => l
  | _ + 1, _, [] => []
  | fuel + 1, atStart, c :: cs =>
    match webvttMatch atStart (c :: cs) with
    | some r => subWebvttFuel fuel true r
    | none => c :: subWebvttFuel fuel (c == '\n') cs

/-- Line 123 of main.py: strip the WEBVTT container header block. -/
def subWebvtt (l : List Char) : List Char := subWebvttFuel l.length true l

/-- One-pass scanner implementing `re.sub` removal of a delimited segment:
`op` opens a candidate match, `cl` closes it (the whole segment including
both delimiters is deleted).  When `nlStops` is true the inner `.*?` cannot
cross a newline (no DOTALL): reaching a newline while buffering flushes the
buffered text literally.  When `needInner` is true the segment needs a
non-empty interior (`[^>]+`), so an immediately-closed pair is not a match.
The first argument buffers, in reverse, the characters of a candidate match
in progress (`none` = outside any candidate). -/
def scanPairAux (op cl : Char) (nlStops needInner : Bool) :
    Option (List Char) → List Char → List Char
  | none, [] => []
  | some buf, [] => buf.reverse
  | none, c :: cs =>
    if c == op then scanPairAux op cl nlStops needInner (some [c]) cs
    else c :: scanPairAux op cl nlStops needInner none cs
  | some buf, c :: cs =>
    if c == cl then
      if needInner && buf.length == 1 then
        buf.reverse ++ c :: scanPairAux op cl nlStops needInner none cs
      else scanPairAux op cl nlStops needInner none cs
    else if nlStops && c == '\n' then
      buf.reverse ++ c :: scanPairAux op cl nlStops needInner none cs
    else scanPairAux op cl nlStops needInner (some (c :: buf)) cs

/-- Line 125 of main.py: `re.sub(r'<[^>]+>', '', content)` — remove inline
markup tags ( `[^>]` may cross newlines, and the interior is non-empty). -/
def subTags (l : List Char) : List Char := scanPairAux '<' '>' false true none l

/-- Line 126 of main.py: `re.sub(r'\[.*?\]', '', content)` — remove
bracketed annotations (the lazy `.*?` cannot cross a newline). -/
def subBrackets (l : List Char) : List Char := scanPairAux '[' ']' true false none l

/-- Line 127 of main.py: `re.sub(r'♪.*?♪', '', content)` — remove segments
delimited by paired musical-note markers. -/
def subNotes (l : List Char) : List Char := scanPairAux '♪' '♪' true false none l

/-- Replace each maximal run of characters satisfying `p` by one space,
as `re.sub(r'\n+', ' ', _)` and `re.sub(r'\s+', ' ', _)` do. -/
def collapseRuns (p : Char → Bool) : List Char → List Char
  | [] => []
  | [c] => if p c then [' '] else [c]
  | a :: b :: l =>
    if p a then
      if p b then collapseRuns p (b :: l)
      else ' ' :: collapseRuns p (b :: l)
    else a :: collapseRuns p (b :: l)

/-- Line 128 of main.py: collapse every run of newlines into one space. -/
def collapseNl (l : List Char) : List Char := collapseRuns (fun c => c == '\n') l

/-- Line 129 of main.py: collapse every run of whitespace into one space. -/
def collapseWs (l : List Char) : List Char := collapseRuns isPySpace l

/-- Drop the maximal all-whitespace suffix (the right half of `str.strip`). -/
def dropTrailing : List Char → List Char
  | [] => []
  | c :: cs =>
    match dropTrailing cs with
    | [] => if isPySpace c then [] else [c]
    | r => c :: r

/-- Python's `str.strip()`: remove leading and trailing whitespace. -/
def pyStrip (l : List Char) : List Char := dropTrailing (l.dropWhile isPySpace)

/-- Lines 121-130 of main.py, `clean_subtitle_text`: the eight-stage VTT
cleanup pipeline. -/
def clean_subtitle_text (l : List Char) : List Char :=
  pyStrip (collapseWs (collapseNl (subNotes (subBrackets (subTags
    (subTimestamps (subWebvtt l)))))))

/-! ## Content extraction pipeline (lines 27-119 of main.py)

The yt_dlp and whisper collaborators are external; each of the two
extraction steps is driven by an oracle describing what its collaborator
did: raised an exception somewhere inside the step's `try` block, produced
no matching file, or produced a file whose text is given. -/

/-- What the external collaborators did inside one extraction step. -/
inductive StepOutcome where
  /-- Some call inside the step's `try` block raised, with this message. -/
  | raises (e : List Char)
  /-- Everything succeeded but no matching output file was found. -/
  | noFile
  /-- A matching file was produced with this raw text content. -/
  | found (text : List Char)
deriving DecidableEq

/-- Lines 58-85 of main.py, `get_subtitles`: returns the cleaned caption
text, or `None`; a raised exception is caught, displayed via `st.error`,
and turned into `None`.  Result: (return value, displayed errors). -/
def get_subtitles : StepOutcome → Option (List Char) × List (List Char)
  | .raises e => (none, ["Subtitle extraction failed: ".toList ++ e])
  | .noFile => (none, [])
  | .found content => (some (clean_subtitle_text content), [])

/-- Lines 87-119 of main.py, `transcribe_audio`: returns the whisper
transcript stripped of surrounding whitespace, or `None`; a raised
exception is caught, displayed via `st.error`, and turned into `None`. -/
def transcribe_audio : StepOutcome → Option (List Char) × List (List Char)
  | .raises e => (none, ["Audio transcription failed: ".toList ++ e])
  | .noFile => (none, [])
  | .found text => (some (pyStrip text), [])

/-- Python truthiness of `Optional[str]`: `None` and the empty string are
falsy. -/
def truthy : Option (List Char) → Bool
  | none => false
  | some t => !t.isEmpty

/-- Lines 27-56 of main.py, `extract_youtube_content`: try subtitles first;
if that yields a truthy string return it, otherwise fall through to audio
transcription; if that also yields nothing, return `None`.  Result:
(return value, displayed errors in order). -/
def extract_youtube_content (subO audO : StepOutcome) :
    Option (List Char) × List (List Char) :=
  let s := get_subtitles subO
  if truthy s.1 then (s.1, s.2)
  else
    let a := transcribe_audio audO
    if truthy a.1 then (a.1, s.2 ++ a.2) else (none, s.2 ++ a.2)

/-! ## Conversation manager (lines 17-25 and 132-205 of main.py) -/

/-- A chat message role. -/
inductive Role where
  | system
  | user
  | assistant
deriving DecidableEq

/-- One chat message, `{"role": ..., "content": ...}`. -/
structure Message where
  role : Role
  content : List Char
deriving DecidableEq

/-- The streamlit session state fields used by the conversation manager
(lines 17-25 of main.py). -/
structure SessionState where
  messages : List Message
  youtube_content : Option (List Char)
  content_loaded : Bool
  chat_history : List (List Char × List Char)
deriving DecidableEq

/-- The freshly initialized session state. -/
def emptySession : SessionState :=
  { messages := [], youtube_content := none, content_loaded := false,
    chat_history := [] }

/-- The fixed system persona message of `initialize_with_content`. -/
def systemMsg : Message :=
  ⟨.system,
   ("You are a YouTube video content assistant. Help users analyze video "
    ++ "content, suggest topics, titles, thumbnails, and provide YouTube "
    ++ "strategy advice.").toList⟩

/-- The user message embedding the extracted content, built at lines
142-145 of main.py. -/
def contentMsg (youtube_content : List Char) : Message :=
  ⟨.user,
   ("Here is the YouTube content I want you to analyze and remember for "
    ++ "our conversation: ").toList ++ youtube_content⟩

/-- Result of `initialize_with_content`: the new session state, the Bool
the function returns, and the errors displayed via `st.error`. -/
structure InitResult where
  state : SessionState
  ok : Bool
  errors : List (List Char)
deriving DecidableEq

/-- Lines 132-168 of main.py, `initialize_with_content`: reset the message
list, append the system persona and the content-bearing user message, then
issue one non-streaming chat call (modelled by the oracle `chatResult`).
On success append the reply as an assistant message, set `content_loaded`,
and return `True`; if the call raises, display the error and return
`False` (the two appended messages stay, `content_loaded` is untouched). -/
def initialize_with_content (chatResult : Except (List Char) (List Char))
    (youtube_content : List Char) (st : SessionState) : InitResult :=
  let msgs := [systemMsg, contentMsg youtube_content]
  match chatResult with
  | .ok response =>
    { state :=
        { st with
          messages := msgs ++ [⟨.assistant, response⟩]
          content_loaded := true }
      ok := true
      errors := [] }
  | .error e =>
    { state := { st with messages := msgs }
      ok := false
      errors := ["Failed to initialize chat: ".toList ++ e] }

/-- Behaviour of one streaming chat call: the content of each chunk the
stream yields, in order, and `some e` when the call raises (before, between
or after chunks) instead of completing normally. -/
structure StreamBehavior where
  chunks : List (List Char)
  failure : Option (List Char)
deriving DecidableEq

/-- Result of `get_ai_response_streaming`: the new session state, the
returned string, the successive strings written to the response container
(one per received chunk), and the errors displayed on it. -/
structure AskResult where
  state : SessionState
  retVal : List Char
  writes : List (List Char)
  errors : List (List Char)
deriving DecidableEq

/-- The successive values of `full_response` written to the response
container: after each chunk the accumulator extended by that chunk. -/
def accumChunks (acc : List Char) : List (List Char) → List (List Char)
  | [] => []
  | c :: cs => (acc ++ c) :: accumChunks (acc ++ c) cs

/-- Concatenation of all chunk contents, `full_response` at stream end. -/
def concatAll (chunks : List (List Char)) : List Char :=
  chunks.foldl (· ++ ·) []

/-- The fixed fallback string returned on a failed streaming call. -/
def fallbackText : List Char :=
  "Sorry, I encountered an error processing your question.".toList

/-- The message list sent to the chat collaborator by
`get_ai_response_streaming`: the accumulated transcript after appending
the user's question (lines 172-182 of main.py). -/
def askRequest (user_question : List Char) (st : SessionState) : List Message :=
  st.messages ++ [⟨.user, user_question⟩]

/-- Lines 170-205 of main.py, `get_ai_response_streaming`: append the user
question, stream the reply writing the cumulative text after every chunk,
and on completion append one assistant message with the full text and
return it.  If the call raises, display the error and return the fixed
fallback string; nothing further is appended. -/
def get_ai_response_streaming (stream : StreamBehavior)
    (user_question : List Char) (st : SessionState) : AskResult :=
  let st1 : SessionState := { st with messages := askRequest user_question st }
  let writes := accumChunks [] stream.chunks
  match stream.failure with
  | none =>
    let full := concatAll stream.chunks
    { state := { st1 with messages := st1.messages ++ [⟨.assistant, full⟩] },
      retVal := full, writes := writes, errors := [] }
  | some e =>
    { state := st1, retVal := fallbackText, writes := writes,
      errors := ["Error getting AI response: ".toList ++ e] }

/-- Run a sequence of `ask` calls, each with its question and stream
behaviour, collecting the message list sent to the chat collaborator by
each call. -/
def runAsks (st : SessionState) :
    List (List Char × StreamBehavior) → SessionState × List (List Message)
  | [] => (st, [])
  | (q, sb) :: rest =>
    let req := askRequest q st
    let next := runAsks (get_ai_response_streaming sb q st).state rest
    (next.1, req :: next.2)

/-- Run a sequence of `ask` calls that all complete without raising. -/
def runAsksOk (st : SessionState)
    (asks : List (List Char × List (List Char))) :
    SessionState × List (List Message) :=
  runAsks st (asks.map (fun a => (a.1, ⟨a.2, none⟩)))

/-! ## Transcript well-formedness -/

/-- The role the other side of the conversation takes next. -/
def otherRole : Role → Role
  | .user => .assistant
  | .assistant => .user
  | .system => .system

/-- The messages' roles strictly alternate, the first being `r`. -/
def alternating : Role → List Message → Bool
  | _, [] => true
  | r, m :: rest => m.role == r && alternating (otherRole r) rest

/-- The transcript invariant claimed by the spec: the first message is the
fixed system persona, the second is a user message containing the full
extracted content, and from the second message on the roles alternate
user/assistant. -/
def transcriptOK (youtube_content : List Char) (msgs : List Message) : Bool :=
  match msgs with
  | s :: u :: rest =>
    s == systemMsg && u.role == .user
      && decide (youtube_content <:+: u.content)
      && alternating .assistant rest
  | _ => false

/-- No two adjacent characters are both whitespace. -/
def noAdjWs : List Char → Bool
  | a :: b :: l => !(isPySpace a && isPySpace b) && noAdjWs (b :: l)
  | _ => true

/-- No two adjacent characters are both the space character. -/
def noDoubleSpace : List Char → Bool
  | a :: b :: l => !(a == ' ' && b == ' ') && noDoubleSpace (b :: l)
  | _ => true

/-! ## Lemmas about the cleaning pipeline -/

/-- While outside any candidate match, the scanner copies characters that
cannot open a match. -/
theorem scanPairAux_outside (op cl : Char) (nl ni : Bool) (pre rest : List Char)
    (h : op ∉ pre) :
    scanPairAux op cl nl ni none (pre ++ rest)
      = pre ++ scanPairAux op cl nl ni none rest := by
  induction pre with
  | nil => rfl
  | cons c t ih =>
    rw [List.mem_cons, not_or] at h
    have hc : (c == op) = false := beq_eq_false_iff_ne.mpr (fun e => h.1 e.symm)
    simp [scanPairAux, hc, ih h.2]

/-- A buffered candidate whose interior holds neither the closing delimiter
nor a newline is removed in full once the closing delimiter arrives. -/
theorem scanPairAux_buffer (op cl : Char) (m : List Char)
    (hm : cl ∉ m) (hn : '\n' ∉ m) : ∀ post buf,
    scanPairAux op cl true false (some buf) (m ++ cl :: post)
      = scanPairAux op cl true false none post := by
  induction m with
  | nil => intro post buf; simp [scanPairAux]
  | cons x t ih =>
    intro post buf
    rw [List.mem_cons, not_or] at hm hn
    have hx : (x == cl) = false := beq_eq_false_iff_ne.mpr (fun e => hm.1 e.symm)
    have hx2 : (x == '\n') = false := beq_eq_false_iff_ne.mpr (fun e => hn.1 e.symm)
    simp [scanPairAux, hx, hx2, ih hm.2 hn.2]

/-- The head of `collapseRuns p` on a non-empty input: a space when the
first character satisfies `p`, the first character itself otherwise. -/
theorem collapseRuns_head (p : Char → Bool) (l : List Char) :
    ∀ b, ∃ t, collapseRuns p (b :: l) = (if p b then ' ' else b) :: t := by
  induction l with
  | nil =>
    intro b
    cases hb : p b
    · exact ⟨[], by simp [collapseRuns, hb]⟩
    · exact ⟨[], by simp [collapseRuns, hb]⟩
  | cons c l' ih =>
    intro b
    cases hb : p b
    · exact ⟨collapseRuns p (c :: l'), by simp [collapseRuns, hb]⟩
    · cases hc : p c
      · exact ⟨collapseRuns p (c :: l'), by simp [collapseRuns, hb, hc]⟩
      · obtain ⟨t, ht⟩ := ih c
        exact ⟨t, by simp [collapseRuns, hb, hc]; simp [hc] at ht; exact ht⟩

/-- Every character `collapseRuns p` emits is a space or fails `p`. -/
theorem collapseRuns_mem (p : Char → Bool) (l : List Char) :
    ∀ c ∈ collapseRuns p l, c = ' ' ∨ p c = false := by
  induction l with
  | nil => simp [collapseRuns]
  | cons a t ih =>
    cases t with
    | nil =>
      intro c hc
      cases ha : p a
      · simp [collapseRuns, ha] at hc; exact Or.inr (hc ▸ ha)
      · simp [collapseRuns, ha] at hc; exact Or.inl hc
    | cons b l' =>
      intro c hc
      cases ha : p a
      · rw [show collapseRuns p (a :: b :: l') = a :: collapseRuns p (b :: l')
            from by simp [collapseRuns, ha]] at hc
        rcases List.mem_cons.mp hc with rfl | hmem
        · exact Or.inr ha
        · exact ih c hmem
      · cases hb : p b
        · rw [show collapseRuns p (a :: b :: l') = ' ' :: collapseRuns p (b :: l')
              from by simp [collapseRuns, ha, hb]] at hc
          rcases List.mem_cons.mp hc with rfl | hmem
          · exact Or.inl rfl
          · exact ih c hmem
        · rw [show collapseRuns p (a :: b :: l') = collapseRuns p (b :: l')
              from by simp [collapseRuns, ha, hb]] at hc
          exact ih c hc

/-- Dropping the first pair preserves `noAdjWs`. -/
theorem noAdjWs_tail (c : Char) (l : List Char) (h : noAdjWs (c :: l) = true) :
    noAdjWs l = true := by
  cases l with
  | nil => rfl
  | cons b t => simp [noAdjWs] at h; simp [noAdjWs, h.2]

/-- After collapsing whitespace runs, no two adjacent characters are both
whitespace. -/
theorem collapseWs_noAdjWs (l : List Char) : noAdjWs (collapseWs l) = true := by
  induction l with
  | nil => rfl
  | cons a t ih =>
    cases t with
    | nil =>
      cases ha : isPySpace a <;> simp [collapseWs, collapseRuns, ha, noAdjWs]
    | cons b l' =>
      cases ha : isPySpace a
      · obtain ⟨t', ht'⟩ := collapseRuns_head isPySpace l' b
        rw [show collapseWs (a :: b :: l') = a :: collapseWs (b :: l')
            from by simp [collapseWs, collapseRuns, ha]]
        rw [show collapseWs (b :: l') = collapseRuns isPySpace (b :: l') from rfl,
            ht'] at ih ⊢
        simp [noAdjWs, ha] at ih ⊢
        exact ih
      · cases hb : isPySpace b
        · obtain ⟨t', ht'⟩ := collapseRuns_head isPySpace l' b
          rw [show collapseWs (a :: b :: l') = ' ' :: collapseWs (b :: l')
              from by simp [collapseWs, collapseRuns, ha, hb]]
          rw [show collapseWs (b :: l') = collapseRuns isPySpace (b :: l') from rfl,
              ht'] at ih ⊢
          simp [hb] at ih ⊢
          simp [noAdjWs, hb] at ih ⊢
          exact ih
        · rw [show collapseWs (a :: b :: l') = collapseWs (b :: l')
              from by simp [collapseWs, collapseRuns, ha, hb]]
          exact ih

/-- Every whitespace character surviving `collapseWs` is the space. -/
theorem collapseWs_ws_eq_space (l : List Char) :
    ∀ c ∈ collapseWs l, isPySpace c = true → c = ' ' :=
  fun c hc hw =>
    (collapseRuns_mem isPySpace l c hc).resolve_right (by simp [hw])

/-- `dropTrailing` yields a sublist (in fact a prefix) of its input. -/
theorem dropTrailing_sublist (l : List Char) : (dropTrailing l).Sublist l := by
  induction l with
  | nil => simp [dropTrailing]
  | cons c cs ih =>
    rw [dropTrailing]
    cases h : dropTrailing cs with
    | nil =>
      cases hc : isPySpace c <;> simp [hc]
    | cons r0 rt => exact List.Sublist.cons₂ c (h ▸ ih)

/-- A non-empty `dropTrailing` keeps the head of its input. -/
theorem dropTrailing_head (x : Char) (xs : List Char) (y : Char) (ys : List Char)
    (h : dropTrailing (x :: xs) = y :: ys) : y = x := by
  rw [dropTrailing] at h
  cases h' : dropTrailing xs with
  | nil =>
    rw [h'] at h
    cases hx : isPySpace x <;> rw [hx] at h <;> simp at h
    exact h.1.symm
  | cons r0 rt =>
    rw [h'] at h
    exact (List.cons.injEq .. ▸ h).1.symm

/-- The last character left by `dropTrailing` is never whitespace. -/
theorem dropTrailing_getLast (l : List Char) :
    ∀ c, (dropTrailing l).getLast? = some c → isPySpace c = false := by
  induction l with
  | nil => intro c h; simp [dropTrailing] at h
  | cons a cs ih =>
    intro c h
    rw [dropTrailing] at h
    cases h' : dropTrailing cs with
    | nil =>
      rw [h'] at h
      cases ha : isPySpace a <;> rw [ha] at h <;> simp at h
      exact h ▸ ha
    | cons r0 rt =>
      rw [h'] at h
      rw [List.getLast?_cons_cons] at h
      exact ih c (by rw [h']; exact h)

/-- `dropWhile` preserves `noAdjWs`. -/
theorem noAdjWs_dropWhile (p : Char → Bool) (l : List Char)
    (h : noAdjWs l = true) : noAdjWs (l.dropWhile p) = true := by
  induction l with
  | nil => exact h
  | cons c cs ih =>
    rw [List.dropWhile_cons]
    cases hp : p c <;> simp [hp]
    · exact h
    · exact ih (noAdjWs_tail c cs h)

/-- `dropTrailing` preserves `noAdjWs`. -/
theorem noAdjWs_dropTrailing (l : List Char) (h : noAdjWs l = true) :
    noAdjWs (dropTrailing l) = true := by
  induction l with
  | nil => exact h
  | cons c cs ih =>
    rw [dropTrailing]
    cases h' : dropTrailing cs with
    | nil =>
      cases hc : isPySpace c <;> simp [hc, noAdjWs]
    | cons r0 rt =>
      have hrest : noAdjWs (r0 :: rt) = true := h' ▸ ih (noAdjWs_tail c cs h)
      cases cs with
      | nil => simp [dropTrailing] at h'
      | cons c2 cs2 =>
        have hr : r0 = c2 := dropTrailing_head c2 cs2 r0 rt h'
        subst hr
        simp [noAdjWs] at h hrest ⊢
        exact ⟨h.1, hrest⟩

/-- Without adjacent whitespace there is no double space. -/
theorem noAdjWs_noDoubleSpace (l : List Char) (h : noAdjWs l = true) :
    noDoubleSpace l = true := by
  induction l with
  | nil => rfl
  | cons a t ih =>
    cases t with
    | nil => rfl
    | cons b t' =>
      rw [show noDoubleSpace (a :: b :: t')
            = (!(a == ' ' && b == ' ') && noDoubleSpace (b :: t')) from rfl]
      rw [show noAdjWs (a :: b :: t')
            = (!(isPySpace a && isPySpace b) && noAdjWs (b :: t')) from rfl] at h
      rw [Bool.and_eq_true] at h ⊢
      refine ⟨?_, ih h.2⟩
      have h1 := h.1
      cases hab : (a == ' ' && b == ' ')
      · rfl
      · rw [Bool.and_eq_true] at hab
        have ha : a = ' ' := by simpa using hab.1
        have hb : b = ' ' := by simpa using hab.2
        subst ha; subst hb
        simp [isPySpace] at h1

/-- The head left by `dropWhile p` fails `p`. -/
theorem dropWhile_head_false (p : Char → Bool) (l : List Char) :
    ∀ c t, l.dropWhile p = c :: t → p c = false := by
  induction l with
  | nil => intro c t h; simp at h
  | cons a l' ih =>
    intro c t h
    rw [List.dropWhile_cons] at h
    cases hpa : p a <;> rw [hpa] at h <;> simp at h
    · exact h.1 ▸ hpa
    · exact ih c t h

/-- The first character of a stripped string is never whitespace. -/
theorem pyStrip_head (l : List Char) :
    ∀ c t, pyStrip l = c :: t → isPySpace c = false := by
  intro c t h
  unfold pyStrip at h
  cases hX : l.dropWhile isPySpace with
  | nil => rw [hX] at h; simp [dropTrailing] at h
  | cons x xs =>
    rw [hX] at h
    have hcx : c = x := dropTrailing_head x xs c t h
    subst hcx
    exact dropWhile_head_false isPySpace l c xs hX

/-- The last character of a stripped string is never whitespace. -/
theorem pyStrip_getLast (l : List Char) :
    ∀ c, (pyStrip l).getLast? = some c → isPySpace c = false :=
  fun c h => dropTrailing_getLast (l.dropWhile isPySpace) c h

/-- Characters of a stripped string come from the input. -/
theorem pyStrip_mem (l : List Char) : ∀ c ∈ pyStrip l, c ∈ l :=
  fun _ hc =>
    List.Sublist.mem (List.Sublist.mem hc (dropTrailing_sublist _))
      (List.dropWhile_sublist isPySpace)

/-! ## Claims C7, C8, C9 -/

/-- Claim C7: `clean_subtitle_text` applied to the literal caption text
"WEBVTT\n\n00:00:00.000 --> 00:00:02.000\nHello [Music] world\n\n" returns
exactly the string "Hello world". -/
theorem clean_c7_scenario :
    clean_subtitle_text
      "WEBVTT\n\n00:00:00.000 --> 00:00:02.000\nHello [Music] world\n\n".toList
      = "Hello world".toList := by decide

/-- Claim C8: for every caption input, the output of `clean_subtitle_text`
is a single line with single-spaced words: it contains no newline, no two
consecutive spaces, and no leading or trailing whitespace character. -/
theorem clean_single_line (s : List Char) :
    '\n' ∉ clean_subtitle_text s
    ∧ noDoubleSpace (clean_subtitle_text s) = true
    ∧ (∀ c t, clean_subtitle_text s = c :: t → isPySpace c = false)
    ∧ (∀ c, (clean_subtitle_text s).getLast? = some c → isPySpace c = false) := by
  refine ⟨?_, ?_, pyStrip_head _, pyStrip_getLast _⟩
  · intro hmem
    have h := collapseWs_ws_eq_space
      (collapseNl (subNotes (subBrackets (subTags (subTimestamps (subWebvtt s))))))
      '\n' (pyStrip_mem _ _ hmem) (by simp [isPySpace])
    exact absurd h (by decide)
  · exact noAdjWs_noDoubleSpace _
      (noAdjWs_dropTrailing _ (noAdjWs_dropWhile _ _ (collapseWs_noAdjWs _)))

/-- Witness for C8 at the concrete input " a\nb ", whose cleanup is
"a b": the first character is a non-whitespace 'a' and the last a
non-whitespace 'b'. -/
theorem clean_single_line_witness :
    isPySpace 'a' = false ∧ isPySpace 'b' = false :=
  ⟨(clean_single_line " a\nb ".toList).2.2.1 'a' " b".toList (by decide),
   (clean_single_line " a\nb ".toList).2.2.2 'b' (by decide)⟩

/-- Claim C9: `clean_subtitle_text`'s bracket and musical-note
substitutions remove a delimited annotation in full — the enclosed text as
well as both delimiters: whenever a bracketed annotation `[m]` (with `m`
free of closing brackets and newlines) or a paired-note segment `♪m♪`
(with `m` free of note markers and newlines) occurs after a prefix that
cannot open an earlier candidate, the whole segment disappears from the
substitution's output. -/
theorem bracket_note_removal :
    (∀ pre m post : List Char, '[' ∉ pre → ']' ∉ m → '\n' ∉ m →
      subBrackets (pre ++ '[' :: (m ++ ']' :: post)) = pre ++ subBrackets post)
    ∧ (∀ pre m post : List Char, '♪' ∉ pre → '♪' ∉ m → '\n' ∉ m →
      subNotes (pre ++ '♪' :: (m ++ '♪' :: post)) = pre ++ subNotes post) := by
  constructor
  · intro pre m post hpre hm hn
    unfold subBrackets
    rw [scanPairAux_outside '[' ']' true false pre _ hpre]
    rw [show scanPairAux '[' ']' true false none ('[' :: (m ++ ']' :: post))
          = scanPairAux '[' ']' true false (some ['[']) (m ++ ']' :: post)
        from by simp [scanPairAux]]
    rw [scanPairAux_buffer '[' ']' m hm hn post ['[']]
  · intro pre m post hpre hm hn
    unfold subNotes
    rw [scanPairAux_outside '♪' '♪' true false pre _ hpre]
    rw [show scanPairAux '♪' '♪' true false none ('♪' :: (m ++ '♪' :: post))
          = scanPairAux '♪' '♪' true false (some ['♪']) (m ++ '♪' :: post)
        from by simp [scanPairAux]]
    rw [scanPairAux_buffer '♪' '♪' m hm hn post ['♪']]

/-- Witness for C9 at the concrete inputs "Hello [Music] world" and
"Hey ♪la la♪ now". -/
theorem bracket_note_removal_witness :
    subBrackets ("Hello ".toList ++ '[' :: ("Music".toList ++ ']' :: " world".toList))
      = "Hello ".toList ++ subBrackets " world".toList
    ∧ subNotes ("Hey ".toList ++ '♪' :: ("la la".toList ++ '♪' :: " now".toList))
      = "Hey ".toList ++ subNotes " now".toList :=
  ⟨bracket_note_removal.1 "Hello ".toList "Music".toList " world".toList
     (by decide) (by decide) (by decide),
   bracket_note_removal.2 "Hey ".toList "la la".toList " now".toList
     (by decide) (by decide) (by decide)⟩

/-! ## Lemmas about the conversation manager -/

/-- Folding append over the chunks from any accumulator. -/
theorem foldl_append_eq (chunks : List (List Char)) :
    ∀ a : List Char, chunks.foldl (· ++ ·) a = a ++ concatAll chunks := by
  induction chunks with
  | nil => intro a; simp [concatAll]
  | cons c cs ih =>
    intro a
    rw [show (c :: cs).foldl (· ++ ·) a = cs.foldl (· ++ ·) (a ++ c) from rfl]
    rw [ih (a ++ c)]
    rw [show concatAll (c :: cs) = cs.foldl (· ++ ·) ([] ++ c) from rfl]
    rw [show ([] : List Char) ++ c = c from rfl, ih c, List.append_assoc]

/-- The successive writes are the concatenations of the chunk prefixes. -/
theorem accumChunks_eq (chunks : List (List Char)) :
    ∀ acc, accumChunks acc chunks
      = (List.range chunks.length).map
          (fun i => acc ++ concatAll (chunks.take (i + 1))) := by
  induction chunks with
  | nil => intro acc; simp [accumChunks]
  | cons c cs ih =>
    intro acc
    rw [show accumChunks acc (c :: cs)
          = (acc ++ c) :: accumChunks (acc ++ c) cs from rfl]
    rw [ih (acc ++ c)]
    rw [show (c :: cs).length = cs.length + 1 from rfl, List.range_succ_eq_map]
    rw [List.map_cons, List.map_map]
    have h0 : acc ++ concatAll ((c :: cs).take (0 + 1)) = acc ++ c := by
      simp [concatAll]
    rw [h0]
    refine congrArg _ (List.map_congr_left fun i _ => ?_)
    show (acc ++ c) ++ concatAll (cs.take (i + 1))
      = acc ++ concatAll ((c :: cs).take (i + 1 + 1))
    rw [show (c :: cs).take (i + 1 + 1) = c :: cs.take (i + 1) from rfl]
    rw [show concatAll (c :: cs.take (i + 1))
          = (cs.take (i + 1)).foldl (· ++ ·) ([] ++ c) from rfl]
    rw [show ([] : List Char) ++ c = c from rfl, foldl_append_eq, List.append_assoc]

/-- The transcript after a successful streaming call: the user question and
one assistant message with the full streamed text are appended. -/
theorem ask_ok_messages (cs : List (List Char)) (q : List Char)
    (st : SessionState) :
    (get_ai_response_streaming ⟨cs, none⟩ q st).state.messages
      = st.messages ++ [⟨.user, q⟩, ⟨.assistant, concatAll cs⟩] := by
  simp [get_ai_response_streaming, askRequest]

/-- Whatever the stream does, `ask` only appends to the transcript. -/
theorem ask_messages_append (sb : StreamBehavior) (q : List Char)
    (st : SessionState) :
    ∃ zs, (get_ai_response_streaming sb q st).state.messages
      = st.messages ++ zs := by
  cases sb with
  | mk chunks failure =>
    cases failure with
    | none =>
      exact ⟨[⟨.user, q⟩, ⟨.assistant, concatAll chunks⟩],
        ask_ok_messages chunks q st⟩
    | some e => exact ⟨[⟨.user, q⟩], rfl⟩

/-! ## Claims C1, C2 -/

/-- Claim C1: a successful prime (`initialize_with_content` returning true)
leaves the transcript consisting of exactly three messages in order — the
fixed system persona, the user message embedding the full content, and the
assistant reply — and sets `content_loaded`. -/
theorem prime_success_transcript (chatResult : Except (List Char) (List Char))
    (yc : List Char) (st : SessionState)
    (h : (initialize_with_content chatResult yc st).ok = true) :
    ∃ response, chatResult = .ok response
      ∧ (initialize_with_content chatResult yc st).state.messages
          = [systemMsg, contentMsg yc, ⟨.assistant, response⟩]
      ∧ (initialize_with_content chatResult yc st).state.content_loaded = true := by
  cases chatResult with
  | ok response => exact ⟨response, rfl, rfl, rfl⟩
  | error e => simp [initialize_with_content] at h

/-- Witness for C1 at the concrete reply "OK" and content "C". -/
theorem prime_success_transcript_witness :
    ∃ response, (Except.ok "OK".toList : Except (List Char) (List Char))
        = .ok response
      ∧ (initialize_with_content (.ok "OK".toList) "C".toList
          emptySession).state.messages
          = [systemMsg, contentMsg "C".toList, ⟨.assistant, response⟩]
      ∧ (initialize_with_content (.ok "OK".toList) "C".toList
          emptySession).state.content_loaded = true :=
  prime_success_transcript (.ok "OK".toList) "C".toList emptySession rfl

/-- Claim C2 counterexample: when the priming chat call raises, the system
and user messages composed before the call are NOT discarded — they stay
committed to the transcript (here, starting from a fresh session, the
transcript ends up holding them instead of being empty). -/
theorem prime_failure_commits_messages_cex :
    (initialize_with_content (.error "boom".toList) "C".toList
        emptySession).ok = false
    ∧ (initialize_with_content (.error "boom".toList) "C".toList
        emptySession).state.messages = [systemMsg, contentMsg "C".toList]
    ∧ (initialize_with_content (.error "boom".toList) "C".toList
        emptySession).state.messages ≠ [] := by
  refine ⟨rfl, rfl, by decide⟩

/-- Claim C2 amended: if the priming chat call raises,
`initialize_with_content` returns false, displays the error, and leaves
`content_loaded` at its prior value — but the system and user messages
composed before the call remain committed to the transcript. -/
theorem prime_failure_state (e yc : List Char) (st : SessionState) :
    (initialize_with_content (.error e) yc st).ok = false
    ∧ (initialize_with_content (.error e) yc st).state.messages
        = [systemMsg, contentMsg yc]
    ∧ (initialize_with_content (.error e) yc st).state.content_loaded
        = st.content_loaded
    ∧ (initialize_with_content (.error e) yc st).errors
        = ["Failed to initialize chat: ".toList ++ e] :=
  ⟨rfl, rfl, rfl, rfl⟩

/-! ## Claims C4, C5 -/

/-- Claim C4: on a stream that completes with the given chunks,
`get_ai_response_streaming` writes the cumulative concatenation once per
chunk, appends exactly one assistant message holding the concatenation of
all chunk contents, and returns that same string. -/
theorem ask_streaming_success (chunks : List (List Char)) (q : List Char)
    (st : SessionState) :
    (get_ai_response_streaming ⟨chunks, none⟩ q st).retVal = concatAll chunks
    ∧ (get_ai_response_streaming ⟨chunks, none⟩ q st).state.messages
        = st.messages ++ [⟨.user, q⟩, ⟨.assistant, concatAll chunks⟩]
    ∧ (get_ai_response_streaming ⟨chunks, none⟩ q st).writes
        = (List.range chunks.length).map
            (fun i => concatAll (chunks.take (i + 1)))
    ∧ (get_ai_response_streaming ⟨chunks, none⟩ q st).errors = [] := by
  refine ⟨rfl, ask_ok_messages chunks q st, ?_, rfl⟩
  show accumChunks [] chunks = _
  rw [accumChunks_eq chunks []]
  exact List.map_congr_left fun i _ => by simp

/-- Claim C5: on a streaming chat call that raises,
`get_ai_response_streaming` returns the fixed apologetic fallback string,
displays the underlying error, and leaves the transcript with the user
question appended but with no assistant message added (in particular the
fallback text is never appended). -/
theorem ask_streaming_failure (chunks : List (List Char)) (e q : List Char)
    (st : SessionState) :
    (get_ai_response_streaming ⟨chunks, some e⟩ q st).retVal = fallbackText
    ∧ (get_ai_response_streaming ⟨chunks, some e⟩ q st).errors
        = ["Error getting AI response: ".toList ++ e]
    ∧ (get_ai_response_streaming ⟨chunks, some e⟩ q st).state.messages
        = st.messages ++ [⟨.user, q⟩]
    ∧ (∀ m ∈ (get_ai_response_streaming ⟨chunks, some e⟩ q st).state.messages,
        m.role = .assistant → m ∈ st.messages) := by
  refine ⟨rfl, rfl, rfl, ?_⟩
  intro m hm hrole
  rw [show (get_ai_response_streaming ⟨chunks, some e⟩ q st).state.messages
        = st.messages ++ [⟨.user, q⟩] from rfl] at hm
  rcases List.mem_append.mp hm with h | h
  · exact h
  · rw [List.mem_singleton] at h
    subst h
    exact absurd hrole (by simp)

/-- Witness for C5 at a concrete failing call: after one chunk "pa" the
call raises "boom"; the session started with an empty transcript, so no
assistant message exists afterwards. -/
theorem ask_streaming_failure_witness :
    Message.mk .user "q".toList
      ∈ (get_ai_response_streaming ⟨["pa".toList], some "boom".toList⟩
          "q".toList emptySession).state.messages
    ∧ ((⟨.user, "q".toList⟩ : Message).role = .assistant
        → Message.mk .user "q".toList ∈ emptySession.messages) :=
  ⟨by decide,
   (ask_streaming_failure ["pa".toList] "boom".toList "q".toList
      emptySession).2.2.2 ⟨.user, "q".toList⟩ (by decide)⟩

/-! ## Claim C3: the transcript invariant -/

/-- `otherRole` is an involution. -/
theorem otherRole_otherRole (r : Role) : otherRole (otherRole r) = r := by
  cases r <;> rfl

/-- Splitting an alternation check over an append: the expected role at the
start of the second part depends on the parity of the first. -/
theorem alternating_append (r : Role) (l1 l2 : List Message) :
    alternating r (l1 ++ l2)
      = (alternating r l1
         && alternating (if l1.length % 2 = 0 then r else otherRole r) l2) := by
  induction l1 generalizing r with
  | nil => simp [alternating]
  | cons m t ih =>
    rw [List.cons_append]
    rw [show alternating r (m :: (t ++ l2))
          = ((m.role == r) && alternating (otherRole r) (t ++ l2)) from rfl]
    rw [show alternating r (m :: t)
          = ((m.role == r) && alternating (otherRole r) t) from rfl]
    rw [ih (otherRole r), Bool.and_assoc]
    congr 2
    rcases Nat.mod_two_eq_zero_or_one t.length with h | h
    · have h2 : (m :: t).length % 2 = 1 := by
        rw [List.length_cons]; omega
      rw [h, h2]; simp
    · have h2 : (m :: t).length % 2 = 0 := by
        rw [List.length_cons]; omega
      rw [h, h2]; simp [otherRole_otherRole]

/-- The state invariant established by a successful prime: the transcript
is the two seed messages followed by an alternating assistant-first tail of
odd length (so that it ends with an assistant turn). -/
def primedInv (yc : List Char) (st : SessionState) : Prop :=
  ∃ rest, st.messages = systemMsg :: contentMsg yc :: rest
    ∧ alternating .assistant rest = true ∧ rest.length % 2 = 1

/-- A successful prime establishes the invariant. -/
theorem primedInv_init (ack yc : List Char) (st : SessionState) :
    primedInv yc (initialize_with_content (.ok ack) yc st).state :=
  ⟨[⟨.assistant, ack⟩], rfl, rfl, rfl⟩

/-- A successful `ask` preserves the invariant. -/
theorem primedInv_step (yc q : List Char) (cs : List (List Char))
    (st : SessionState) (h : primedInv yc st) :
    primedInv yc (get_ai_response_streaming ⟨cs, none⟩ q st).state := by
  obtain ⟨rest, hm, ha, hl⟩ := h
  refine ⟨rest ++ [⟨.user, q⟩, ⟨.assistant, concatAll cs⟩], ?_, ?_, ?_⟩
  · rw [ask_ok_messages, hm]; simp
  · rw [alternating_append, ha]
    rw [if_neg (by omega)]
    rfl
  · have h2 : (rest ++ [(⟨.user, q⟩ : Message),
        ⟨.assistant, concatAll cs⟩]).length = rest.length + 2 := by
      rw [List.length_append]; rfl
    rw [h2]; omega

/-- Any sequence of successful `ask` calls preserves the invariant. -/
theorem primedInv_runAsksOk (yc : List Char)
    (asks : List (List Char × List (List Char))) :
    ∀ st, primedInv yc st → primedInv yc (runAsksOk st asks).1 := by
  induction asks with
  | nil => intro st h; exact h
  | cons a l ih =>
    intro st h
    rw [show (runAsksOk st (a :: l)).1
          = (runAsksOk (get_ai_response_streaming ⟨a.2, none⟩ a.1 st).state l).1
        from rfl]
    exact ih _ (primedInv_step yc a.1 a.2 st h)

/-- The invariant implies the spec's transcript well-formedness check. -/
theorem primedInv_transcriptOK (yc : List Char) (st : SessionState)
    (h : primedInv yc st) : transcriptOK yc st.messages = true := by
  obtain ⟨rest, hm, ha, _⟩ := h
  rw [hm]
  simp only [transcriptOK, Bool.and_eq_true, beq_self_eq_true, beq_iff_eq,
    decide_eq_true_eq]
  exact ⟨⟨⟨trivial, rfl⟩, ⟨("Here is the YouTube content I want you to "
    ++ "analyze and remember for our conversation: ").toList, [],
    by simp [contentMsg]⟩⟩, ha⟩

/-- A two-element `take` survives appending on the right. -/
theorem take_two_of_append (msgs zs : List Message) (x y : Message)
    (h : msgs.take 2 = [x, y]) : (msgs ++ zs).take 2 = [x, y] := by
  have hlen : 2 ≤ msgs.length := by
    have h2 := congrArg List.length h
    rw [List.length_take, List.length_cons, List.length_cons,
      List.length_nil] at h2
    exact min_eq_left_iff.mp h2
  rw [List.take_append_of_le_length hlen, h]

/-- Every request `runAsks` issues keeps the two seed messages in front,
whatever the stream behaviours are. -/
theorem runAsks_requests (yc : List Char)
    (asks : List (List Char × StreamBehavior)) :
    ∀ st, st.messages.take 2 = [systemMsg, contentMsg yc] →
      ∀ req ∈ (runAsks st asks).2, req.take 2 = [systemMsg, contentMsg yc] := by
  induction asks with
  | nil => intro st h req hreq; simp [runAsks] at hreq
  | cons a l ih =>
    intro st h req hreq
    rw [show (runAsks st (a :: l)).2
          = askRequest a.1 st
            :: (runAsks (get_ai_response_streaming a.2 a.1 st).state l).2
        from rfl] at hreq
    rcases List.mem_cons.mp hreq with rfl | hmem
    · exact take_two_of_append st.messages [⟨.user, a.1⟩] _ _ h
    · obtain ⟨zs, hzs⟩ := ask_messages_append a.2 a.1 st
      exact ih _ (by rw [hzs]; exact take_two_of_append _ _ _ _ h) req hmem

set_option maxRecDepth 10000 in
/-- Claim C3 counterexample: after a successful prime, one `ask` whose
stream raises mid-way and one that succeeds, the transcript violates the
claimed invariant — the failed exchange left a user question without an
assistant reply, so the user/assistant alternation is broken. -/
theorem transcript_invariant_cex :
    transcriptOK "C".toList
      (runAsks
        (initialize_with_content (.ok "A".toList) "C".toList emptySession).state
        [("q1".toList, ⟨["a1".toList], some "e".toList⟩),
         ("q2".toList, ⟨["a2".toList], none⟩)]).1.messages = false := by
  decide

/-- Claim C3 amended: after a successful prime followed by any number of
successful `ask` calls the transcript satisfies the invariant (first the
fixed system persona, then a user message containing the full content,
then alternating user/assistant turns); and after a successful prime,
every chat request issued by any sequence of `ask` calls — succeeding or
failing — begins with exactly the system persona message and the user
content message. -/
theorem transcript_invariant_amended (yc ack : List Char) (st : SessionState)
    (asksOk : List (List Char × List (List Char)))
    (asksAny : List (List Char × StreamBehavior)) :
    transcriptOK yc
      (runAsksOk (initialize_with_content (.ok ack) yc st).state
        asksOk).1.messages = true
    ∧ ∀ req ∈ (runAsks (initialize_with_content (.ok ack) yc st).state
        asksAny).2, req.take 2 = [systemMsg, contentMsg yc] := by
  constructor
  · exact primedInv_transcriptOK yc _
      (primedInv_runAsksOk yc asksOk _ (primedInv_init ack yc st))
  · exact runAsks_requests yc asksAny _ rfl

/-- Witness for C3 amended at one successful ask and one failing ask. -/
theorem transcript_invariant_amended_witness :
    transcriptOK "C".toList
      (runAsksOk (initialize_with_content (.ok "A".toList) "C".toList
        emptySession).state [("q".toList, ["a".toList])]).1.messages = true
    ∧ (askRequest "q".toList
        (initialize_with_content (.ok "A".toList) "C".toList
          emptySession).state).take 2
        = [systemMsg, contentMsg "C".toList] :=
  ⟨(transcript_invariant_amended "C".toList "A".toList emptySession
      [("q".toList, ["a".toList])] [("q".toList, ⟨[], some "e".toList⟩)]).1,
   (transcript_invariant_amended "C".toList "A".toList emptySession
      [("q".toList, ["a".toList])] [("q".toList, ⟨[], some "e".toList⟩)]).2
     (askRequest "q".toList
       (initialize_with_content (.ok "A".toList) "C".toList emptySession).state)
     (by decide)⟩

/-! ## Claims C6, C10: the extraction pipeline -/

/-- The final audio-transcription step produced nothing: it raised, found
no audio file, or transcribed only whitespace. -/
def audioFailed : StepOutcome → Bool
  | .raises _ => true
  | .noFile => true
  | .found t => (pyStrip t).isEmpty

/-- Claim C6: extraction is ordered and short-circuiting with the stated
failure policy.  An exception in the subtitle step is caught and surfaced
as a user-visible message, that path produces nothing, and control
proceeds to the audio-transcription fallback (the result is whatever the
audio path determines); a failure — exception or no text — in the final
audio step ends the pipeline with overall failure (`none`), never a
partial string. -/
theorem extraction_fallback_policy :
    (∀ e audO,
      (extract_youtube_content (.raises e) audO).2
          = ("Subtitle extraction failed: ".toList ++ e)
              :: (transcribe_audio audO).2
        ∧ (extract_youtube_content (.raises e) audO).1
          = (if truthy (transcribe_audio audO).1
             then (transcribe_audio audO).1 else none))
    ∧ (∀ subO audO, truthy (get_subtitles subO).1 = false →
        audioFailed audO = true →
        (extract_youtube_content subO audO).1 = none) := by
  constructor
  · intro e audO
    constructor
    · simp only [extract_youtube_content, get_subtitles]
      cases haud : truthy (transcribe_audio audO).1 <;> simp [truthy, haud]
    · simp only [extract_youtube_content, get_subtitles]
      cases haud : truthy (transcribe_audio audO).1 <;> simp [truthy, haud]
  · intro subO audO hsub haud
    have htr : truthy (transcribe_audio audO).1 = false := by
      cases audO with
      | raises e => rfl
      | noFile => rfl
      | found t =>
        simp only [audioFailed] at haud
        simp [transcribe_audio, truthy, haud]
    simp only [extract_youtube_content]
    rw [if_neg (by simp [hsub])]
    rw [if_neg (by simp [htr])]

/-- Witness for C6: a raising subtitle step surfaces its message and falls
through; with a raising transcription step the pipeline returns `none`. -/
theorem extraction_fallback_policy_witness :
    ((extract_youtube_content (.raises "no net".toList)
        (.raises "boom".toList)).2
      = ("Subtitle extraction failed: ".toList ++ "no net".toList)
          :: (transcribe_audio (.raises "boom".toList)).2
      ∧ (extract_youtube_content (.raises "no net".toList)
          (.raises "boom".toList)).1
        = (if truthy (transcribe_audio (.raises "boom".toList)).1
           then (transcribe_audio (.raises "boom".toList)).1 else none))
    ∧ (extract_youtube_content (.raises "no net".toList)
        (.raises "boom".toList)).1 = none :=
  ⟨(extraction_fallback_policy.1 "no net".toList (.raises "boom".toList)),
   extraction_fallback_policy.2 (.raises "no net".toList)
     (.raises "boom".toList) (by decide) (by decide)⟩

/-- Claim C10: `extract_youtube_content` is total over the modelled
collaborator outcomes and returns either `none` or a non-empty string;
a caption track whose cleaned text is empty is treated exactly like a
missing caption track — the pipeline falls through to audio transcription
rather than returning the empty string. -/
theorem extraction_total_nonempty :
    (∀ subO audO, (extract_youtube_content subO audO).1 = none
        ∨ ∃ t, t ≠ [] ∧ (extract_youtube_content subO audO).1 = some t)
    ∧ (∀ content audO, clean_subtitle_text content = [] →
        extract_youtube_content (.found content) audO
          = extract_youtube_content .noFile audO) := by
  constructor
  · intro subO audO
    unfold extract_youtube_content
    cases hs : truthy (get_subtitles subO).1
    · cases ha : truthy (transcribe_audio audO).1
      · left; simp [hs, ha]
      · right
        rcases htr : (transcribe_audio audO).1 with _ | t
        · rw [htr] at ha; simp [truthy] at ha
        · have ht : truthy (some t) = true := htr ▸ ha
          refine ⟨t, ?_, by simp [hs, htr, ht]⟩
          simpa [truthy, List.isEmpty_iff] using ht
    · right
      rcases hsub : (get_subtitles subO).1 with _ | t
      · rw [hsub] at hs; simp [truthy] at hs
      · have ht : truthy (some t) = true := hsub ▸ hs
        refine ⟨t, ?_, by simp [hs, hsub, ht]⟩
        simpa [truthy, List.isEmpty_iff] using ht
  · intro content audO hclean
    unfold extract_youtube_content
    simp [get_subtitles, hclean, truthy]

/-- Witness for C10 at the caption text "[Music]" (which cleans to the
empty string) and a transcription step that raises. -/
theorem extraction_total_nonempty_witness :
    ((extract_youtube_content (.found "[Music]".toList)
        (.raises "boom".toList)).1 = none
      ∨ ∃ t, t ≠ []
        ∧ (extract_youtube_content (.found "[Music]".toList)
            (.raises "boom".toList)).1 = some t)
    ∧ extract_youtube_content (.found "[Music]".toList) (.raises "boom".toList)
      = extract_youtube_content .noFile (.raises "boom".toList) :=
  ⟨extraction_total_nonempty.1 (.found "[Music]".toList)
     (.raises "boom".toList),
   extraction_total_nonempty.2 "[Music]".toList (.raises "boom".toList)
     (by decide)⟩
